import Mathlib

/-!
Verification of the MOFA2 observation-node and model-serializer components
(`biofam/core/nodes/Y_nodes.py` and `biofam/build_model/save_model.py`)
against their natural-language specification.

The embedding is shallow: numpy arrays over `Fin`-indexed matrices (for the
ELBO computations) and over nested lists (for the serializer, whose per-node
dataset shapes are heterogeneous), floats as rationals, numpy masked arrays
as a data matrix plus a boolean mask plus a fill value, the HDF5 container
as a list of (path, dataset) pairs, and Python in-place mutation as explicit
state passing (with a small explicit store where object identity matters).
-/

namespace MOFA2

/-! ## Masked observation node (`Y_nodes.py`)

Scalars are modelled as `ℚ`; a possibly-non-finite float entry is `Option ℚ`
with `none` standing for NaN (the missing-value marker in the raw data).
-/

/-- A numpy masked array of shape (n × d): underlying data, boolean mask,
and fill value.  In numpy the three components are independent state. -/
structure MaskedArray (n d : ℕ) where
  data : Matrix (Fin n) (Fin d) (Option ℚ)
  mask : Fin n → Fin d → Bool
  fill : ℚ

/-- The `value` attribute of `Y_Node`: either a plain ndarray (before
`mask()` has run) or a masked array. -/
inductive YValue (n d : ℕ) where
  | plain (a : Matrix (Fin n) (Fin d) (Option ℚ))
  | masked (m : MaskedArray n d)

/-- One step of `Y_Node.mask()`: if the value is not yet a `MaskedArray`,
build one with `ma.masked_invalid` (mask = non-finite entries, i.e. `none`
in this model, data kept); then `ma.set_fill_value(value, 0.)`. -/
def maskStep {n d : ℕ} : YValue n d → MaskedArray n d
  | .plain a => { data := a, mask := fun i j => (a i j).isNone, fill := 0 }
  | .masked m => { m with fill := 0 }

/-- `Y_Node.mask()` as a transformation of the stored `value`. -/
def maskValue {n d : ℕ} (v : YValue n d) : YValue n d :=
  .masked (maskStep v)

/-- The `Y_Node` after construction: `__init__` immediately calls `mask()`,
so `value` is always a `MaskedArray`.  `N`, `D` and `likconst` are the
fields filled in by `precompute` (zero-initialised here; the Python object
simply lacks them before `precompute` runs).  The stochastic-inference
`mini_batch` attribute is `None` from construction until stochastic
training starts and is not modelled: `precompute` is called while it is
`None`, and `calculateELBO` reads `ma.getmask(self.value)` directly. -/
structure YNode (n d : ℕ) where
  value : MaskedArray n d
  N : Fin d → ℕ := fun _ => 0
  D : Fin n → ℕ := fun _ => 0
  likconst : ℚ := 0

/-- `Y_Node.__init__(dim, value)`: store the value and mask it. -/
def YNode.init {n d : ℕ} (v : YValue n d) : YNode n d :=
  { value := maskStep v }

/-- Number of masked entries in column `j` (the `axis=0` mask sum). -/
def maskColCount {n d : ℕ} (msk : Fin n → Fin d → Bool) (j : Fin d) : ℕ :=
  (Finset.univ.filter (fun i => msk i j = true)).card

/-- Number of masked entries in row `i` (the `axis=1` mask sum). -/
def maskRowCount {n d : ℕ} (msk : Fin n → Fin d → Bool) (i : Fin n) : ℕ :=
  (Finset.univ.filter (fun j => msk i j = true)).card

/-- `Y_Node.precompute(options)`:
`N = dim[0] - getMask().sum(axis=0)` (one entry per feature/column),
`D = dim[1] - getMask().sum(axis=1)` (one entry per sample/row), and
`likconst = -0.5 * sum(N) * log(2π)`.  `log(2π)` is irrational, so in this
rational-scalar model it is passed in as the parameter `log2pi`; no claim
depends on its numeric value.  The `gpu_mode` option toggles a global array
backend flag and is orthogonal to the computed values. -/
def YNode.precompute {n d : ℕ} (node : YNode n d) (log2pi : ℚ) : YNode n d :=
  let msk := node.value.mask
  let N : Fin d → ℕ := fun j => n - maskColCount msk j
  let D : Fin n → ℕ := fun i => d - maskRowCount msk i
  { node with
    N := N
    D := D
    likconst := -(1/2 : ℚ) * (∑ j, (N j : ℚ)) * log2pi }

/-- `Y_Node.calculateELBO()`.  Expectations of the Markov-blanket nodes are
passed explicitly: `Tau["E"]`, `Tau["lnE"]` (n × d), the W node's stored
`E`, `E2` (d × k, transposed to k × d inside, as in the source), and the Z
node's `E`, `E2` (n × k).  Masked entries of `Y` carry no usable data
(`getD 0` supplies a junk value there); both the log-precision term and the
residual `tmp` are zeroed at masked positions before summing, so the junk
never reaches the result — exactly as the numpy masked data never does.
The source zeroes `Tau["lnE"][mask]` in place; only the value read here is
relevant to the claims, so the mutation of the Tau node is not tracked. -/
def YNode.calculateELBO {n d k : ℕ} (node : YNode n d)
    (Tau_E Tau_lnE : Matrix (Fin n) (Fin d) ℚ)
    (W_E W_E2 : Matrix (Fin d) (Fin k) ℚ)
    (Z_E Z_E2 : Matrix (Fin n) (Fin k) ℚ) : ℚ :=
  let Y : Matrix (Fin n) (Fin d) ℚ := Matrix.of fun i j => (node.value.data i j).getD 0
  let W := W_E.transpose
  let WW := W_E2.transpose
  let Z := Z_E
  let ZZ := Z_E2
  let msk := node.value.mask
  let lnE : Matrix (Fin n) (Fin d) ℚ := Matrix.of fun i j => if msk i j then 0 else Tau_lnE i j
  let ZW := Z * W
  let tmp : Matrix (Fin n) (Fin d) ℚ := Matrix.of fun i j =>
    Y i j ^ 2 + (ZZ * WW) i j - (Z.map (fun x => x ^ 2) * W.map (fun x => x ^ 2)) i j
      + ZW i j ^ 2 - 2 * ZW i j * Y i j
  let tmp2 : Matrix (Fin n) (Fin d) ℚ := Matrix.of fun i j => if msk i j then 0 else tmp i j
  node.likconst + (1/2 : ℚ) * (∑ i, ∑ j, lnE i j) - ∑ i, ∑ j, Tau_E i j * tmp2 i j

/-! ## Hierarchical model serializer (`save_model.py`)

Here matrices are nested lists (`numpy` arrays of per-node shapes), scalar
entries again `Option ℚ` with `none` for NaN.  The HDF5 container is a list
of (path, dataset) pairs; Python's in-place mutations are explicit state. -/

/-- A numeric (float) matrix as stored in a node expectation: `none` is NaN. -/
abbrev NMat := List (List (Option ℚ))

/-- A boolean mask matrix. -/
abbrev BMat := List (List Bool)

/-- The empty string (used as a lookup default for name tables). -/
def noName : String := ""

/-- numpy `==` on floats-with-NaN: NaN (`none`) compares unequal to
everything, itself included. -/
def vEq : Option ℚ → Option ℚ → Bool
  | some a, some b => a == b
  | _, _ => false

/-- One view of a multi-view node: its expectation matrix and (for the Y
node) the missing-value mask of that view. -/
structure ViewEnt where
  exp : NMat
  mask : BMat := []

/-- A node as seen by the serializer: either a `Multiview_Node` (one
expectation per view) or a plain node with a single expectation. -/
inductive NodeEnt where
  | multiview (views : List ViewEnt)
  | singleview (exp : NMat)

/-- The trained-model boundary object: `model.trained` and
`model.getNodes()` (an insertion-ordered name → node dictionary). -/
structure ModelObj where
  trained : Bool
  nodes : List (String × NodeEnt)

/-- The serializer state built by `saveModel.__init__`.  `trainOptsRef` is
the reference (index into an explicit store) of the caller's training
options dictionary, which `__init__` stores without copying. -/
structure SaveState where
  model : ModelObj
  data : List NMat
  mask : List BMat
  samples_groups : List String
  groups_names : List String
  views_names : List String
  trainOptsRef : ℕ

/-- Association-list lookup (`dict[key]`, first match). -/
def lookupA {α : Type} : List (String × α) → String → Option α
  | [], _ => none
  | (k, v) :: rest, key => if k = key then some v else lookupA rest key

/-- Association-list update of the first entry with the given key. -/
def updateA {α : Type} : List (String × α) → String → α → List (String × α)
  | [], _, _ => []
  | (k, v) :: rest, key, nv =>
      if k = key then (k, nv) :: rest else (k, v) :: updateA rest key nv

/-- First-occurrence deduplication (Python dict-comprehension key order). -/
def dedupFirstAux (seen : List String) : List String → List String
  | [] => []
  | x :: rest =>
      if seen.contains x then dedupFirstAux seen rest
      else x :: dedupFirstAux (x :: seen) rest

/-- First-occurrence deduplication of a name list. -/
def dedupFirst (l : List String) : List String := dedupFirstAux [] l

/-- Insert into a lexicographically sorted list (helper for `np.unique`). -/
def insertSorted (x : String) : List String → List String
  | [] => [x]
  | y :: rest => if (compare x y).isLE then x :: y :: rest else y :: insertSorted x rest

/-- `np.unique`: the sorted list of distinct values. -/
def uniqueSorted (l : List String) : List String :=
  (dedupFirst l).foldr insertSorted []

/-- `np.where(np.array(samples_groups) == g)[0]`: indices of group `g`. -/
def sampIndices (sg : List String) (g : String) : List ℕ :=
  (List.range sg.length).filter (fun i => sg.getD i noName == g)

/-- Row selection `a[idx, :]`. -/
def rowsAt (m : NMat) (idx : List ℕ) : NMat :=
  idx.map (fun i => m.getD i [])

/-- `List.map` with the element index supplied, starting at `start`. -/
def mapIdxFrom {α β : Type} (f : ℕ → α → β) : ℕ → List α → List β
  | _, [] => []
  | i, x :: xs => f i x :: mapIdxFrom f (i + 1) xs

/-- Boolean-mask NaN assignment `a[msk] = np.nan` (shapes agree in every
use; positions outside the mask's extent read `false` and are kept). -/
def maskNaNMat (a : NMat) (msk : BMat) : NMat :=
  mapIdxFrom (fun i row =>
    mapIdxFrom (fun j v => if (msk.getD i []).getD j false then none else v) 0 row) 0 a

/-- numpy `.T` on a (rectangular, here row-nonempty) nested-list matrix. -/
def transposeMat (m : NMat) : NMat :=
  (List.range (m.headD []).length).map (fun j => m.map (fun row => row.getD j none))

/-- The scalar `m[i, j]` of a nested-list matrix (default NaN out of range). -/
def entryAt (m : NMat) (i j : ℕ) : Option ℚ :=
  (m.getD i []).getD j none

instance : Inhabited ViewEnt := ⟨{ exp := [] }⟩

/-- `saveModel.__init__`: the precondition checks and state capture, in
source order.  `fileCreated` records whether `h5py.File(outfile, "w")` ran
— i.e. whether the (empty) output container was created on disk.  No
dataset is written by `__init__` itself. -/
structure InitOutcome where
  fileCreated : Bool
  result : Except String SaveState

/-- `saveModel.__init__(model, outfile, data, samples_groups, ...)`:
assert `model.trained`; open the container file in write mode; read the
masks off the Y node's views; assert
`len(samples_groups) == data[0].shape[0]`; then store everything. -/
def saveModelInit (model : ModelObj) (data : List NMat)
    (samples_groups : List String) (views_names : List String)
    (trainOptsRef : ℕ) : InitOutcome :=
  if model.trained = false then
    { fileCreated := false, result := .error ("Model is not trained") }
  else
    match lookupA model.nodes ("Y") with
    | some (.multiview views) =>
        match data with
        | [] => { fileCreated := true, result := .error ("IndexError: data[0]") }
        | d0 :: _ =>
            if samples_groups.length ≠ d0.length then
              { fileCreated := true
                result := .error
                  ("length of samples groups does not match the number of samples in the data") }
            else
              { fileCreated := true
                result := .ok
                  { model := model
                    data := data
                    mask := views.map ViewEnt.mask
                    samples_groups := samples_groups
                    groups_names := uniqueSorted samples_groups
                    views_names := views_names
                    trainOptsRef := trainOptsRef } }
    | _ => { fileCreated := true, result := .error ("AttributeError: Y nodes") }

/-- The node-name whitelist of `saveExpectations`. -/
def recognizedNodes : List String :=
  ["Z", "W", "Y", "Tau", "AlphaW", "AlphaZ", "ThetaZ", "ThetaW"]

/-- The hard-coded `multigroup_nodes` name list. -/
def multigroupNodes : List String := ["Y", "Tau", "Z"]

/-- The `nodes` argument of `saveExpectations`: a single string or a
list/tuple of names. -/
inductive NodesArg where
  | str (s : String)
  | list (l : List String)

/-- The group loop for one view of a multi-view multi-group node: for each
group, first re-apply the NaN mask to the view's expectation *in place*,
then write the group's sample rows as one dataset. -/
def exportMGViewAux (sg : List String) (nodeName viewName : String) (msk : BMat) :
    List String → NMat → List (List String × NMat) →
    NMat × List (List String × NMat)
  | [], e, acc => (e, acc)
  | g :: gs, e, acc =>
      let e2 := maskNaNMat e msk
      exportMGViewAux sg nodeName viewName msk gs e2
        (acc ++ [(["expectations", nodeName, viewName, g],
          rowsAt e2 (sampIndices sg g))])

/-- The per-view inner loop for a multi-view multi-group node. -/
def exportMGView (groups : List String) (sg : List String)
    (nodeName viewName : String) (msk : BMat) (e : NMat) :
    NMat × List (List String × NMat) :=
  exportMGViewAux sg nodeName viewName msk groups e []

/-- The body of the `for n in nodes_dic` loop of `saveExpectations` for one
node: returns the (possibly mutated) node and its datasets. -/
def exportNode (st : SaveState) (n : String) (node : NodeEnt) :
    NodeEnt × List (List String × NMat) :=
  match node with
  | .multiview views =>
      if n ∈ multigroupNodes then
        let processed := mapIdxFrom (fun m v =>
            let r := exportMGView st.groups_names st.samples_groups n
                (st.views_names.getD m noName) (st.mask.getD m []) v.exp
            ({ v with exp := r.1 }, r.2)) 0 views
        (.multiview (processed.map Prod.fst), (processed.map Prod.snd).flatten)
      else
        (.multiview views,
          mapIdxFrom (fun m v =>
            (["expectations", n, st.views_names.getD m noName], transposeMat v.exp)) 0 views)
  | .singleview e =>
      if n ∈ multigroupNodes then
        (node, st.groups_names.map (fun g =>
          (["expectations", n, g], transposeMat (rowsAt e (sampIndices st.samples_groups g)))))
      else
        (node, [(["expectations", n, "E"], transposeMat e)])

/-- The node iteration of `saveExpectations`: walk the selected names in
order, mutating the registry entry of each processed node and accumulating
the written datasets. -/
def runExportAux (st : SaveState) :
    List String → List (String × NodeEnt) → List (List String × NMat) →
    List (String × NodeEnt) × List (List String × NMat)
  | [], nodes, acc => (nodes, acc)
  | nm :: rest, nodes, acc =>
      match lookupA nodes nm with
      | some node =>
          let r := exportNode st nm node
          runExportAux st rest (updateA nodes nm r.1) (acc ++ r.2)
      | none => runExportAux st rest nodes acc

/-- The node iteration of `saveExpectations`, started on the registry. -/
def runExport (st : SaveState) (selected : List String) :
    List (String × NodeEnt) × List (List String × NMat) :=
  runExportAux st selected st.model.nodes []

/-- `saveModel.saveExpectations(nodes)`: a single string is either "all"
(expanded to every registry key) or wrapped as a singleton — with no
whitelist check; a list/tuple is asserted to be a subset of the recognized
names.  Names absent from the registry are then silently dropped, and the
remaining nodes are exported in order.  Returns the updated state (the
registry mutations) and the datasets written. -/
def saveExpectations (st : SaveState) (arg : NodesArg) :
    Except String (SaveState × List (List String × NMat)) :=
  match arg with
  | .str s =>
      let names := if s == "all" then st.model.nodes.map Prod.fst else [s]
      let selected := dedupFirst (names.filter (fun x => (lookupA st.model.nodes x).isSome))
      let r := runExport st selected
      .ok ({ st with model := { st.model with nodes := r.1 } }, r.2)
  | .list l =>
      if l.all (fun x => recognizedNodes.contains x) then
        let selected := dedupFirst (l.filter (fun x => (lookupA st.model.nodes x).isSome))
        let r := runExport st selected
        .ok ({ st with model := { st.model with nodes := r.1 } }, r.2)
      else .error ("Unrecognised nodes")

/-! ## Training-options persistence (`saveTrainOptions`) -/

/-- A training-option value: a numeric scalar, a string (e.g. the schedule
or convergence-mode fields), or a one-level nested dictionary of numeric
values. -/
inductive OptVal where
  | num (q : ℚ)
  | str (s : String)
  | dict (entries : List (String × ℚ))
deriving DecidableEq

/-- Is this value a nested dictionary? -/
def OptVal.isDict : OptVal → Bool
  | .dict _ => true
  | _ => false

/-- Is this value a numeric scalar? -/
def OptVal.isNum : OptVal → Bool
  | .num _ => true
  | _ => false

/-- A Python dictionary of training options (insertion-ordered). -/
abbrev PyOpts := List (String × OptVal)

/-- Python `d[k] = v`: replace the first entry with key `k`, else append. -/
def dictSet (d : PyOpts) (k : String) (v : OptVal) : PyOpts :=
  match d with
  | [] => [(k, v)]
  | kv :: rest => if kv.1 = k then (k, v) :: rest else kv :: dictSet rest k v

/-- Python `d.pop(k)` / `del d[k]` (no-op when the key is absent). -/
def dictPop (d : PyOpts) (k : String) : PyOpts :=
  d.filter (fun kv => kv.1 != k)

/-- The inner loop `for k1, v1 in v.items(): opts[k + "_" + k1] = v1`. -/
def flattenChildren (k : String) : PyOpts → List (String × ℚ) → PyOpts
  | cur, [] => cur
  | cur, c :: rest => flattenChildren k (dictSet cur (k ++ "_" ++ c.1) (.num c.2)) rest

/-- The loop `for k, v in opts.copy().items(): if type(v) == dict: ...`:
iterates over a snapshot (`todo`) while mutating the live dictionary
(`cur`); each nested dictionary is flattened into `parent_child` keys and
the parent entry popped. -/
def flattenLoop : List (String × OptVal) → PyOpts → PyOpts
  | [], cur => cur
  | (k, OptVal.dict ch) :: rest, cur =>
      flattenLoop rest (dictPop (flattenChildren k cur ch) k)
  | (_, _) :: rest, cur => flattenLoop rest cur

/-- Keys of the nested-dictionary entries of `d`. -/
def parentKeys (d : PyOpts) : List String :=
  d.filterMap (fun kv => match kv.2 with | .dict _ => some kv.1 | _ => none)

/-- All flattened `parent_child` names generated from `d`. -/
def flNames (d : PyOpts) : List String :=
  (d.map (fun kv => match kv.2 with
    | .dict ch => ch.map (fun c => kv.1 ++ "_" ++ c.1)
    | _ => [])).flatten

/-- The flattened `parent_child` entries generated from `d`, in order. -/
def flatChildren (d : PyOpts) : PyOpts :=
  (d.map (fun kv => match kv.2 with
    | .dict ch => ch.map (fun c => (kv.1 ++ "_" ++ c.1, OptVal.num c.2))
    | _ => [])).flatten

/-- Extract a numeric table entry from an options entry. -/
def numExtract (kv : String × OptVal) : Option (String × ℚ) :=
  match kv.2 with
  | .num q => some (kv.1, q)
  | _ => none

/-- `np.array(list(opts.values()), dtype=np.float)` plus the names
attribute: succeeds only when every remaining value is numeric. -/
def toNumTable (d : PyOpts) : Except String (List (String × ℚ)) :=
  if d.all (fun kv => kv.2.isNum) then .ok (d.filterMap numExtract)
  else .error ("could not convert training options to float")

/-- `saveModel.saveTrainOptions` on the options dictionary itself: flatten
nested dictionaries, delete the `schedule` and `convergence_mode` keys if
present, and build the numeric table.  Returns (mutated dictionary,
persisted table). -/
def saveTrainOptionsCore (opts : PyOpts) :
    PyOpts × Except String (List (String × ℚ)) :=
  let o1 := flattenLoop opts opts
  let o2 := dictPop (dictPop o1 ("schedule")) ("convergence_mode")
  (o2, toNumTable o2)

/-- `saveModel.saveTrainOptions` with the caller's dictionary held in an
explicit store: `opts = self.train_opts` aliases the object the caller
passed to `__init__`, so the mutations land in the caller's cell. -/
def saveTrainOptions (st : SaveState) (store : List PyOpts) :
    List PyOpts × Except String (List (String × ℚ)) :=
  let opts := store.getD st.trainOptsRef []
  let r := saveTrainOptionsCore opts
  (store.set st.trainOptsRef r.1, r.2)

/-! ## Concrete example states used by counterexamples and witnesses -/

/-- A small concrete serializer state used by the C4 counterexample. -/
def c4State : SaveState :=
  { model := { trained := true, nodes := [("Z", .singleview [[some 1]])] }
    data := [[[some 1]]]
    mask := [[[false]]]
    samples_groups := ["g1"]
    groups_names := ["g1"]
    views_names := ["v1"]
    trainOptsRef := 0 }

/-- A trained two-sample model for the C5 counterexample. -/
def c5Model : ModelObj :=
  { trained := true
    nodes := [("Y", .multiview [{ exp := [[some 1], [some 2]]
                                  mask := [[false], [false]] }])] }

/-- The Y node's views in the concrete example registry below: one view of
shape 2 samples × 2 features with one masked entry at (0, 0). -/
def exYViews : List ViewEnt :=
  [{ exp := [[some 1, some 2], [some 3, some 4]]
     mask := [[true, false], [false, false]] }]

/-- A concrete serializer state with one node of each serialization kind:
"W" multi-view single-group, "Z" single-view multi-group, "AlphaZ"
single-view single-group, "Y" multi-view multi-group. -/
def exState : SaveState :=
  { model := { trained := true
               nodes := [("W", .multiview [{ exp := [[some 1, some 2]] }]),
                         ("Z", .singleview [[some 3], [some 4]]),
                         ("AlphaZ", .singleview [[some 5]]),
                         ("Y", .multiview exYViews)] }
    data := [[[some 1, some 2], [some 3, some 4]]]
    mask := [[[true, false], [false, false]]]
    samples_groups := ["g1", "g1"]
    groups_names := ["g1"]
    views_names := ["v1"]
    trainOptsRef := 0 }

/-- A concrete training-options dictionary with a nested block, the two
string fields, and a flat numeric entry. -/
def w8opts : PyOpts :=
  [("stochastic", OptVal.dict [("batch_size", 50), ("lr", 1/10)]),
   ("schedule", OptVal.str ("Z,W,Tau")),
   ("convergence_mode", OptVal.str ("fast")),
   ("tolerance", OptVal.num 7)]

/-- A minimal serializer state whose training-options reference is cell 0
of the explicit store. -/
def c10State : SaveState :=
  { model := { trained := true, nodes := [] }
    data := []
    mask := []
    samples_groups := []
    groups_names := []
    views_names := []
    trainOptsRef := 0 }

/-! ## Theorems -/

/-! ### Claim C1 -/

/-- The closed form computed by `calculateELBO`, with the matrix products
expanded into explicit sums. -/
lemma calculateELBO_eq_formula {n d k : ℕ} (node : YNode n d)
    (Tau_E Tau_lnE : Matrix (Fin n) (Fin d) ℚ)
    (W_E W_E2 : Matrix (Fin d) (Fin k) ℚ)
    (Z_E Z_E2 : Matrix (Fin n) (Fin k) ℚ) :
    node.calculateELBO Tau_E Tau_lnE W_E W_E2 Z_E Z_E2 =
      node.likconst
        + (1/2 : ℚ) * (∑ i, ∑ j, if node.value.mask i j then 0 else Tau_lnE i j)
        - ∑ i, ∑ j, Tau_E i j *
            (if node.value.mask i j then (0 : ℚ) else
              ((node.value.data i j).getD 0) ^ 2
                + (∑ l, Z_E2 i l * W_E2 j l)
                - (∑ l, Z_E i l ^ 2 * W_E j l ^ 2)
                + (∑ l, Z_E i l * W_E j l) ^ 2
                - 2 * (∑ l, Z_E i l * W_E j l) * ((node.value.data i j).getD 0)) := by
  unfold YNode.calculateELBO
  simp only [Matrix.mul_apply, Matrix.transpose_apply, Matrix.map_apply, Matrix.of_apply]

/-- C1: for every observation node with a precomputed `likconst` and with
the Z, W, Tau expectations from its Markov blanket, `calculateELBO` returns
exactly `likconst + 0.5 * Σ lnE' - Σ (Tau_E * tmp')`, where `lnE'` is Tau's
log-precision expectation zeroed at masked positions, and `tmp'` is
`Y² + ZZ·WW − (Z²)·(W²) + (Z·W)² − 2·(Z·W)·Y` (with W and WW transposed
from the W node's stored expectations) zeroed at masked positions. -/
theorem calculateELBO_formula {n d k : ℕ} (node : YNode n d)
    (Tau_E Tau_lnE : Matrix (Fin n) (Fin d) ℚ)
    (W_E W_E2 : Matrix (Fin d) (Fin k) ℚ)
    (Z_E Z_E2 : Matrix (Fin n) (Fin k) ℚ) :
    node.calculateELBO Tau_E Tau_lnE W_E W_E2 Z_E Z_E2 =
      node.likconst
        + (1/2 : ℚ) * (∑ i, ∑ j, if node.value.mask i j then 0 else Tau_lnE i j)
        - ∑ i, ∑ j, Tau_E i j *
            (if node.value.mask i j then (0 : ℚ) else
              ((node.value.data i j).getD 0) ^ 2
                + (∑ l, Z_E2 i l * W_E2 j l)
                - (∑ l, Z_E i l ^ 2 * W_E j l ^ 2)
                + (∑ l, Z_E i l * W_E j l) ^ 2
                - 2 * (∑ l, Z_E i l * W_E j l) * ((node.value.data i j).getD 0)) :=
  calculateELBO_eq_formula node Tau_E Tau_lnE W_E W_E2 Z_E Z_E2

/-! ### Claim C2 -/

/-- C2: the values stored at masked positions do not influence the ELBO.
Two observation nodes built (and precomputed) from masked values with the
same mask and with data agreeing at all unmasked positions yield the same
`calculateELBO` result under the same Z, W, Tau expectations. -/
theorem calculateELBO_mask_invariant {n d k : ℕ} (m1 m2 : MaskedArray n d) (log2pi : ℚ)
    (Tau_E Tau_lnE : Matrix (Fin n) (Fin d) ℚ)
    (W_E W_E2 : Matrix (Fin d) (Fin k) ℚ)
    (Z_E Z_E2 : Matrix (Fin n) (Fin k) ℚ)
    (hmask : m1.mask = m2.mask)
    (hdata : ∀ i j, m1.mask i j = false → m1.data i j = m2.data i j) :
    ((YNode.init (.masked m1)).precompute log2pi).calculateELBO
        Tau_E Tau_lnE W_E W_E2 Z_E Z_E2 =
      ((YNode.init (.masked m2)).precompute log2pi).calculateELBO
        Tau_E Tau_lnE W_E W_E2 Z_E Z_E2 := by
  have hval1 : ((YNode.init (.masked m1)).precompute log2pi).value = { m1 with fill := 0 } := rfl
  have hval2 : ((YNode.init (.masked m2)).precompute log2pi).value = { m2 with fill := 0 } := rfl
  rw [calculateELBO_eq_formula, calculateELBO_eq_formula, hval1, hval2]
  have hlik : ((YNode.init (.masked m1)).precompute log2pi).likconst =
      ((YNode.init (.masked m2)).precompute log2pi).likconst := by
    simp only [YNode.precompute, YNode.init, maskStep]
    rw [show ({ m1 with fill := 0 } : MaskedArray n d).mask = m2.mask from hmask]
  rw [hlik]
  congr 1
  · congr 1
    congr 1
    refine Finset.sum_congr rfl (fun i _ => Finset.sum_congr rfl (fun j _ => ?_))
    simp only [hmask]
  · refine Finset.sum_congr rfl (fun i _ => Finset.sum_congr rfl (fun j _ => ?_))
    simp only [hmask]
    by_cases h : m2.mask i j
    · simp [h]
    · have hd : m1.data i j = m2.data i j := by
        apply hdata
        rw [hmask]
        simpa using h
      simp [h, hd]

/-- Witness for C2: a concrete 2 × 2 node with one masked position where the
two underlying data matrices differ (1000 vs NaN); the ELBO agrees. -/
theorem calculateELBO_mask_invariant_witness :
    (let ma1 : MaskedArray 2 2 :=
      { data := Matrix.of ![![some 1, some 1000], ![some 2, some 3]]
        mask := fun i j => decide (i = 0 ∧ j = 1)
        fill := 0 }
    let ma2 : MaskedArray 2 2 :=
      { data := Matrix.of ![![some 1, none], ![some 2, some 3]]
        mask := fun i j => decide (i = 0 ∧ j = 1)
        fill := 0 }
    ((YNode.init (.masked ma1)).precompute 0).calculateELBO
        (k := 1) 1 1 (Matrix.of ![![(5 : ℚ)], ![6]]) (Matrix.of ![![25], ![36]])
        (Matrix.of ![![(1 : ℚ)], ![2]]) (Matrix.of ![![1], ![4]]) =
      ((YNode.init (.masked ma2)).precompute 0).calculateELBO
        (k := 1) 1 1 (Matrix.of ![![(5 : ℚ)], ![6]]) (Matrix.of ![![25], ![36]])
        (Matrix.of ![![(1 : ℚ)], ![2]]) (Matrix.of ![![1], ![4]])) :=
  calculateELBO_mask_invariant _ _ 0 1 1 _ _ _ _ (by decide)
    (by decide)

/-! ### Claim C3

The claim states `N[i] + (# missing in row i) = feature count` (and `D`
symmetrically over columns).  In the source, `N` is `dim[0] − mask.sum(axis=0)`
— one entry per *column* (feature), counting observed *samples* — and `D` is
one entry per *row* (sample), counting observed *features*: the claim has the
two vectors' roles swapped. -/

/-- A concrete 1 × 2 observation matrix refuting C3 as stated: with no
missing entries at all, `N` (length 2, per feature) has `N[0] = 1`, and
`N[0] + (# missing in row 0) = 1 ≠ 2 = feature count`; symmetrically `D`
(length 1, per sample) has `D[0] + (# missing in column 0) = 2 ≠ 1`. -/
theorem precompute_counts_counterexample :
    (let node := (YNode.init (n := 1) (d := 2)
        (.plain (Matrix.of ![![some 1, some 2]]))).precompute 0
    node.N 0 + maskRowCount node.value.mask 0 ≠ 2 ∧
      node.D 0 + maskColCount node.value.mask 0 ≠ 1) := by
  constructor <;> decide

/-- C3 (amended): after `precompute`, for every feature (column) index `j`,
`N[j] + (# missing in column j) = total sample count`, and for every sample
(row) index `i`, `D[i] + (# missing in row i) = total feature count`
— i.e. the claim with the roles of `N` and `D` interchanged. -/
theorem precompute_counts {n d : ℕ} (node : YNode n d) (log2pi : ℚ)
    (j : Fin d) (i : Fin n) :
    (node.precompute log2pi).N j + maskColCount node.value.mask j = n ∧
      (node.precompute log2pi).D i + maskRowCount node.value.mask i = d := by
  constructor
  · exact Nat.sub_add_cancel (le_trans (Finset.card_filter_le _ _) (by simp))
  · exact Nat.sub_add_cancel (le_trans (Finset.card_filter_le _ _) (by simp))

/-! ### Claim C6 -/

/-- C6: `mask()` is idempotent — applying it twice yields the identical
masked value (data, mask and fill all equal) as applying it once — and the
fill value after masking is 0, so a second application to the
already-masked value is a no-op. -/
theorem maskValue_idempotent {n d : ℕ} (v : YValue n d) :
    maskValue (maskValue v) = maskValue v ∧ (maskStep v).fill = 0 := by
  cases v <;> exact ⟨rfl, rfl⟩

/-! ### Claim C4

The whitelist assertion of `saveExpectations` runs only on the list/tuple
branch; a single string other than "all" is wrapped as a singleton with no
check and, when it is not a registry key, silently filtered out. -/

/-- Counterexample to C4 as stated: passing the unrecognized single string
"Foo" does not fail — the call returns successfully with an unchanged
registry and no datasets (the name is silently skipped). -/
theorem saveExpectations_single_string_counterexample :
    saveExpectations c4State (.str ("Foo")) = .ok (c4State, []) := rfl

/-- C4 (amended): a list/tuple argument containing a name outside the
recognized whitelist fails with the "Unrecognised nodes" assertion error;
but a *single string* outside the whitelist is not checked: when it is not
a registry key it is silently dropped, and the call succeeds with an empty
export and an unchanged registry. -/
theorem saveExpectations_whitelist (st : SaveState) (l : List String)
    (x : String) (s : String)
    (hx : x ∈ l) (hxw : x ∉ recognizedNodes) (hs : s ≠ ("all"))
    (hlook : (lookupA st.model.nodes s).isSome = false) :
    saveExpectations st (.list l) = .error ("Unrecognised nodes") ∧
      ∃ st2, saveExpectations st (.str s) = .ok (st2, []) ∧
        st2.model.nodes = st.model.nodes := by
  constructor
  · have hall : l.all (fun y => recognizedNodes.contains y) = false := by
      rw [List.all_eq_false]
      exact ⟨x, hx, by simpa using hxw⟩
    simp only [saveExpectations, hall, Bool.false_eq_true, if_false]
  · have hsb : (s == ("all")) = false := beq_eq_false_iff_ne.mpr hs
    refine ⟨_, ?_, rfl⟩
    simp only [saveExpectations, hsb, Bool.false_eq_true, if_false, List.filter, hlook,
      dedupFirst, dedupFirstAux, runExport]
    exact rfl

/-- Witness for C4 (amended) at concrete inputs: the list ["Z", "Foo"]
errors, while the single string "Bar" succeeds with an empty export. -/
theorem saveExpectations_whitelist_witness :
    saveExpectations c4State (.list ["Z", "Foo"]) = .error ("Unrecognised nodes") ∧
      ∃ st2, saveExpectations c4State (.str ("Bar")) = .ok (st2, []) ∧
        st2.model.nodes = c4State.model.nodes :=
  saveExpectations_whitelist c4State ["Z", "Foo"] ("Foo") ("Bar")
    (by decide) (by decide) (by decide) (by rfl)

/-! ### Claim C5

`__init__` checks `model.trained` *before* opening the container file, but
checks the samples-groups length *after* `h5py.File(outfile, "w")` has
created (or truncated to empty) the container: on a length mismatch an
empty container file exists. -/

/-- Counterexample to C5 as stated: with a trained model and a group-label
array of length 1 against 2 data samples, construction fails — but the
container file has already been created. -/
theorem saveModelInit_partial_container_counterexample :
    (saveModelInit c5Model [[[some 1], [some 2]]] ["g1"] ["v1"] 0).fileCreated = true ∧
      (saveModelInit c5Model [[[some 1], [some 2]]] ["g1"] ["v1"] 0).result =
        .error ("length of samples groups does not match the number of samples in the data") :=
  ⟨rfl, rfl⟩

/-- C5 (amended): an untrained model fails the precondition *before* the
container file is created; a group-label length mismatch also fails the
precondition before any dataset is written, but only *after* the empty
container file has been created. -/
theorem saveModelInit_precondition_order (model : ModelObj) (data : List NMat)
    (sg vn : List String) (r : ℕ) (views : List ViewEnt) (d0 : NMat)
    (rest : List NMat) :
    (model.trained = false →
      saveModelInit model data sg vn r =
        { fileCreated := false, result := .error ("Model is not trained") }) ∧
    (model.trained = true →
      lookupA model.nodes ("Y") = some (.multiview views) →
      data = d0 :: rest →
      sg.length ≠ d0.length →
      saveModelInit model data sg vn r =
        { fileCreated := true
          result := .error
            ("length of samples groups does not match the number of samples in the data") }) := by
  constructor
  · intro h
    simp [saveModelInit, h]
  · intro ht hY hdata hlen
    subst hdata
    simp [saveModelInit, ht, hY, hlen]

/-- Witness for C5 (amended) at concrete inputs: an untrained model fails
with no file created; a trained model with mismatched group labels fails
with the file created. -/
theorem saveModelInit_precondition_order_witness :
    (saveModelInit { trained := false, nodes := [] } [] [] [] 0 =
      { fileCreated := false, result := .error ("Model is not trained") }) ∧
    (saveModelInit c5Model [[[some 1], [some 2]]] ["g1"] ["v1"] 0 =
      { fileCreated := true
        result := .error
          ("length of samples groups does not match the number of samples in the data") }) :=
  ⟨(saveModelInit_precondition_order { trained := false, nodes := [] } [] [] [] 0 [] [] []).1 rfl,
   (saveModelInit_precondition_order c5Model [[[some 1], [some 2]]] ["g1"] ["v1"] 0
      [{ exp := [[some 1], [some 2]], mask := [[false], [false]] }] [[some 1], [some 2]] []).2
      rfl (by simp [c5Model, lookupA]) rfl (by decide)⟩

/-! ### Helper lemmas: indexed maps, masking, registry folds -/

lemma length_mapIdxFrom {α β : Type} (f : ℕ → α → β) (k : ℕ) (l : List α) :
    (mapIdxFrom f k l).length = l.length := by
  induction l generalizing k with
  | nil => rfl
  | cons x xs ih => simp [mapIdxFrom, ih]

lemma getElem?_mapIdxFrom {α β : Type} (f : ℕ → α → β) (k i : ℕ) (l : List α) :
    (mapIdxFrom f k l)[i]? = (l[i]?).map (f (k + i)) := by
  induction l generalizing k i with
  | nil => simp [mapIdxFrom]
  | cons x xs ih =>
      cases i with
      | zero => simp [mapIdxFrom]
      | succ i =>
          have hk : k + (i + 1) = (k + 1) + i := by omega
          simp only [mapIdxFrom, List.getElem?_cons_succ, ih (k + 1) i, hk]

lemma map_mapIdxFrom {α β γ : Type} (f : ℕ → α → β) (h : β → γ) (k : ℕ) (l : List α) :
    (mapIdxFrom f k l).map h = mapIdxFrom (fun i x => h (f i x)) k l := by
  induction l generalizing k with
  | nil => rfl
  | cons x xs ih => simp [mapIdxFrom, ih]

lemma mapIdxFrom_mapIdxFrom {α β γ : Type} (g : ℕ → α → β) (f : ℕ → β → γ)
    (k : ℕ) (l : List α) :
    mapIdxFrom f k (mapIdxFrom g k l) = mapIdxFrom (fun i x => f i (g i x)) k l := by
  induction l generalizing k with
  | nil => rfl
  | cons x xs ih => simp [mapIdxFrom, ih]

lemma mapIdxFrom_congr {α β : Type} (f g : ℕ → α → β) (k : ℕ) (l : List α)
    (h : ∀ i x, f i x = g i x) : mapIdxFrom f k l = mapIdxFrom g k l := by
  induction l generalizing k with
  | nil => rfl
  | cons x xs ih => simp [mapIdxFrom, h, ih]

lemma getD_mapIdxFrom {α β : Type} (f : ℕ → α → β) (k i : ℕ) (l : List α)
    (d : α) (d2 : β) (hi : i < l.length) :
    (mapIdxFrom f k l).getD i d2 = f (k + i) (l.getD i d) := by
  induction l generalizing k i with
  | nil => simp at hi
  | cons x xs ih =>
      cases i with
      | zero => simp [mapIdxFrom]
      | succ i =>
          have hk : k + (i + 1) = (k + 1) + i := by omega
          simp only [mapIdxFrom, List.getD_cons_succ, hk]
          exact ih (k + 1) i (Nat.lt_of_succ_lt_succ hi)

lemma maskNaNMat_idem (a : NMat) (msk : BMat) :
    maskNaNMat (maskNaNMat a msk) msk = maskNaNMat a msk := by
  unfold maskNaNMat
  rw [mapIdxFrom_mapIdxFrom]
  refine mapIdxFrom_congr _ _ _ _ (fun i row => ?_)
  rw [mapIdxFrom_mapIdxFrom]
  refine mapIdxFrom_congr _ _ _ _ (fun j v => ?_)
  by_cases h : (msk.getD i []).getD j false = true
  · rw [if_pos h, if_pos h]
  · rw [if_neg h, if_neg h]

lemma entryAt_maskNaNMat (a : NMat) (msk : BMat) (i j : ℕ)
    (hi : i < a.length) (hj : j < (a.getD i []).length) :
    entryAt (maskNaNMat a msk) i j =
      if (msk.getD i []).getD j false then none else entryAt a i j := by
  unfold entryAt maskNaNMat
  rw [getD_mapIdxFrom _ 0 i a [] [] hi]
  simp only [Nat.zero_add]
  rw [getD_mapIdxFrom _ 0 j (a.getD i []) none none hj]
  simp only [Nat.zero_add]

lemma vEq_none_left (b : Option ℚ) : vEq none b = false := by
  cases b <;> rfl

lemma transposeMat_length (e : NMat) : (transposeMat e).length = (e.headD []).length := by
  unfold transposeMat
  rw [List.length_map, List.length_range]

lemma lookupA_updateA_self {α : Type} (l : List (String × α)) (k : String) (v v0 : α)
    (h : lookupA l k = some v0) : lookupA (updateA l k v) k = some v := by
  induction l with
  | nil => simp [lookupA] at h
  | cons kv rest ih =>
      by_cases hk : kv.1 = k
      · simp [lookupA, updateA, hk]
      · simp only [lookupA, updateA, if_neg hk] at h ⊢
        exact ih h

lemma lookupA_updateA_ne {α : Type} (l : List (String × α)) (k k' : String) (v : α)
    (h : k ≠ k') : lookupA (updateA l k v) k' = lookupA l k' := by
  induction l with
  | nil => rfl
  | cons kv rest ih =>
      by_cases hk : kv.1 = k
      · subst hk
        simp [lookupA, updateA, if_neg h]
      · simp only [updateA, if_neg hk, lookupA]
        by_cases hk' : kv.1 = k'
        · simp [hk']
        · simp [hk', ih]

lemma lookupA_isSome_iff_mem {α : Type} (l : List (String × α)) (k : String) :
    (lookupA l k).isSome = true ↔ k ∈ l.map Prod.fst := by
  induction l with
  | nil => simp [lookupA]
  | cons kv rest ih =>
      by_cases hk : kv.1 = k
      · simp [lookupA, hk]
      · simp only [lookupA, if_neg hk, List.map_cons, List.mem_cons, ih]
        constructor
        · exact fun h => Or.inr h
        · rintro (h | h)
          · exact absurd h.symm hk
          · exact h

lemma dedupFirstAux_eq_self (l : List String) : ∀ seen : List String,
    l.Nodup → (∀ x ∈ l, seen.contains x = false) → dedupFirstAux seen l = l := by
  induction l with
  | nil => intro seen _ _; rfl
  | cons x rest ih =>
      intro seen hnd hseen
      have hx : seen.contains x = false := hseen x (List.mem_cons_self x rest)
      have hnd' := hnd
      rw [List.nodup_cons] at hnd'
      unfold dedupFirstAux
      rw [hx]
      simp only [Bool.false_eq_true, if_false]
      congr 1
      refine ih (x :: seen) hnd'.2 (fun y hy => ?_)
      rw [List.contains_cons]
      have hyx : (y == x) = false := by
        rw [beq_eq_false_iff_ne]
        intro he
        exact hnd'.1 (he ▸ hy)
      rw [hyx, hseen y (List.mem_cons_of_mem x hy)]
      rfl

lemma dedupFirst_eq_self (l : List String) (h : l.Nodup) : dedupFirst l = l :=
  dedupFirstAux_eq_self l [] h (fun _ _ => rfl)

lemma runExportAux_lookup_not_mem (st : SaveState) (sel : List String)
    (nodes : List (String × NodeEnt)) (acc : List (List String × NMat))
    (n : String) (h : n ∉ sel) :
    lookupA (runExportAux st sel nodes acc).1 n = lookupA nodes n := by
  induction sel generalizing nodes acc with
  | nil => rfl
  | cons nm rest ih =>
      have hne : nm ≠ n := fun he => h (he ▸ List.mem_cons_self nm rest)
      have hrest : n ∉ rest := fun hr => h (List.mem_cons_of_mem nm hr)
      cases hl : lookupA nodes nm with
      | some node =>
          simp only [runExportAux, hl]
          rw [ih _ _ hrest, lookupA_updateA_ne _ _ _ _ hne]
      | none =>
          simp only [runExportAux, hl]
          exact ih _ _ hrest

lemma runExportAux_lookup_mem (st : SaveState) (sel : List String)
    (nodes : List (String × NodeEnt)) (acc : List (List String × NMat))
    (n : String) (node : NodeEnt) (hnd : sel.Nodup) (h : n ∈ sel)
    (hlook : lookupA nodes n = some node) :
    lookupA (runExportAux st sel nodes acc).1 n = some (exportNode st n node).1 := by
  induction sel generalizing nodes acc with
  | nil => exact absurd h (List.not_mem_nil n)
  | cons nm rest ih =>
      rw [List.nodup_cons] at hnd
      by_cases he : nm = n
      · subst he
        simp only [runExportAux, hlook]
        rw [runExportAux_lookup_not_mem _ _ _ _ _ hnd.1]
        exact lookupA_updateA_self _ _ _ _ hlook
      · have hrest : n ∈ rest := by
          rcases List.mem_cons.mp h with h1 | h1
          · exact absurd h1.symm he
          · exact h1
        cases hl : lookupA nodes nm with
        | some node2 =>
            simp only [runExportAux, hl]
            refine ih _ _ hnd.2 hrest ?_
            rw [lookupA_updateA_ne _ _ _ _ he, hlook]
        | none =>
            simp only [runExportAux, hl]
            exact ih _ _ hnd.2 hrest hlook

lemma runExportAux_out (st : SaveState) (sel : List String)
    (nodes : List (String × NodeEnt)) (acc : List (List String × NMat))
    (hnd : sel.Nodup) :
    (runExportAux st sel nodes acc).2 =
      acc ++ (sel.map (fun n =>
        match lookupA nodes n with
        | some node => (exportNode st n node).2
        | none => [])).flatten := by
  induction sel generalizing nodes acc with
  | nil => simp [runExportAux]
  | cons nm rest ih =>
      rw [List.nodup_cons] at hnd
      cases hl : lookupA nodes nm with
      | some node =>
          simp only [runExportAux, hl]
          rw [ih _ _ hnd.2]
          have hmap : rest.map (fun n =>
              match lookupA (updateA nodes nm (exportNode st nm node).1) n with
              | some nd => (exportNode st n nd).2
              | none => []) =
            rest.map (fun n =>
              match lookupA nodes n with
              | some nd => (exportNode st n nd).2
              | none => []) := by
            refine List.map_congr_left (fun x hx => ?_)
            have hne : nm ≠ x := fun he => hnd.1 (he ▸ hx)
            rw [lookupA_updateA_ne _ _ _ _ hne]
          rw [hmap, List.map_cons, List.flatten_cons, hl, List.append_assoc]
      | none =>
          simp only [runExportAux, hl]
          rw [ih _ _ hnd.2, List.map_cons, List.flatten_cons, hl]
          simp

lemma exportMGViewAux_fixed (sg : List String) (nn vn : String) (msk : BMat)
    (gs : List String) (acc : List (List String × NMat)) (e : NMat) :
    exportMGViewAux sg nn vn msk gs (maskNaNMat e msk) acc =
      (maskNaNMat e msk,
        acc ++ gs.map (fun g => (["expectations", nn, vn, g],
          rowsAt (maskNaNMat e msk) (sampIndices sg g)))) := by
  induction gs generalizing acc with
  | nil => simp [exportMGViewAux]
  | cons g rest ih =>
      simp only [exportMGViewAux, maskNaNMat_idem]
      rw [ih]
      simp

lemma exportMGView_spec (groups sg : List String) (nn vn : String) (msk : BMat)
    (e : NMat) (h : groups ≠ []) :
    exportMGView groups sg nn vn msk e =
      (maskNaNMat e msk,
        groups.map (fun g => (["expectations", nn, vn, g],
          rowsAt (maskNaNMat e msk) (sampIndices sg g)))) := by
  cases groups with
  | nil => exact absurd rfl h
  | cons g rest =>
      unfold exportMGView
      simp only [exportMGViewAux]
      rw [exportMGViewAux_fixed]
      simp

lemma selected_all_eq_keys (st : SaveState)
    (hkeys : (st.model.nodes.map Prod.fst).Nodup) :
    dedupFirst ((st.model.nodes.map Prod.fst).filter
        (fun x => (lookupA st.model.nodes x).isSome)) =
      st.model.nodes.map Prod.fst := by
  have hfilter : (st.model.nodes.map Prod.fst).filter
      (fun x => (lookupA st.model.nodes x).isSome) = st.model.nodes.map Prod.fst := by
    refine List.filter_eq_self.mpr (fun x hx => ?_)
    exact (lookupA_isSome_iff_mem _ _).mpr hx
  rw [hfilter]
  exact dedupFirst_eq_self _ hkeys

/-! ### Claim C9 -/

/-- C9: for a multi-view multi-group node ("Y" or "Tau") with a masked
entry, `saveExpectations` overwrites every masked position of the node's
in-memory expectation with NaN: afterwards the registry's expectation at
that position is `none` and compares unequal (in float semantics, where
NaN ≠ everything) to whatever was stored there before the save. -/
theorem saveExpectations_mutates_masked (st : SaveState) (n : String)
    (views : List ViewEnt) (m i j : ℕ)
    (hkeys : (st.model.nodes.map Prod.fst).Nodup)
    (hn : n = ("Y") ∨ n = ("Tau"))
    (hnode : lookupA st.model.nodes n = some (.multiview views))
    (hgroups : st.groups_names ≠ [])
    (hm : m < views.length)
    (hi : i < (views.getD m default).exp.length)
    (hj : j < ((views.getD m default).exp.getD i []).length)
    (hmask : ((st.mask.getD m []).getD i []).getD j false = true) :
    ∃ st2 out, saveExpectations st (.str ("all")) = .ok (st2, out) ∧
      ∃ views2, lookupA st2.model.nodes n = some (.multiview views2) ∧
        entryAt (views2.getD m default).exp i j = none ∧
        vEq (entryAt (views2.getD m default).exp i j)
          (entryAt (views.getD m default).exp i j) = false := by
  have hmem : n ∈ st.model.nodes.map Prod.fst := by
    refine (lookupA_isSome_iff_mem _ _).mp ?_
    rw [hnode]
    rfl
  have hmg : n ∈ multigroupNodes := by
    rcases hn with h | h <;> subst h <;> decide
  have hexp : (exportNode st n (.multiview views)).1 =
      .multiview (mapIdxFrom
        (fun m2 v => { v with exp := maskNaNMat v.exp (st.mask.getD m2 []) }) 0 views) := by
    simp only [exportNode, if_pos hmg]
    rw [map_mapIdxFrom]
    refine congrArg _ (mapIdxFrom_congr _ _ _ _ (fun m2 v => ?_))
    simp only [exportMGView_spec _ _ _ _ _ _ hgroups]
  refine ⟨{ st with model := { st.model with
      nodes := (runExport st (st.model.nodes.map Prod.fst)).1 } },
    (runExport st (st.model.nodes.map Prod.fst)).2, ?_, ?_⟩
  · simp only [saveExpectations, beq_self_eq_true, if_true,
      selected_all_eq_keys st hkeys, runExport]
  · refine ⟨mapIdxFrom
        (fun m2 v => { v with exp := maskNaNMat v.exp (st.mask.getD m2 []) }) 0 views,
      ?_, ?_, ?_⟩
    · show lookupA (runExport st (st.model.nodes.map Prod.fst)).1 n = _
      unfold runExport
      rw [runExportAux_lookup_mem st _ _ _ n _ hkeys hmem hnode, hexp]
    · rw [getD_mapIdxFrom _ 0 m views default default hm]
      simp only [Nat.zero_add]
      rw [entryAt_maskNaNMat _ _ _ _ hi hj, if_pos hmask]
    · rw [getD_mapIdxFrom _ 0 m views default default hm]
      simp only [Nat.zero_add]
      rw [entryAt_maskNaNMat _ _ _ _ hi hj, if_pos hmask, vEq_none_left]

lemma getD_mem_mapIdxFrom {α β : Type} (f : ℕ → α → β) (l : List α) (m : ℕ) (d : α)
    (hm : m < l.length) : f m (l.getD m d) ∈ mapIdxFrom f 0 l := by
  have hm2 : m < (mapIdxFrom f 0 l).length := by
    rw [length_mapIdxFrom]
    exact hm
  have h1 : (mapIdxFrom f 0 l)[m]? = some (f m (l.getD m d)) := by
    rw [getElem?_mapIdxFrom, List.getElem?_eq_getElem hm]
    simp only [Nat.zero_add, Option.map_some']
    rw [List.getD_eq_getElem _ _ hm]
  rw [List.mem_iff_getElem]
  refine ⟨m, hm2, ?_⟩
  have h2 := List.getElem?_eq_getElem hm2
  rw [h1] at h2
  exact (Option.some.inj h2).symm

lemma saveExpectations_all_eq (st : SaveState)
    (hkeys : (st.model.nodes.map Prod.fst).Nodup) :
    saveExpectations st (.str ("all")) =
      .ok ({ st with model := { st.model with
          nodes := (runExport st (st.model.nodes.map Prod.fst)).1 } },
        (runExport st (st.model.nodes.map Prod.fst)).2) := by
  simp only [saveExpectations, beq_self_eq_true, if_true,
    selected_all_eq_keys st hkeys, runExport]

lemma mem_runExport_out (st : SaveState)
    (hkeys : (st.model.nodes.map Prod.fst).Nodup) (n : String) (node : NodeEnt)
    (ds : List String × NMat)
    (hnode : lookupA st.model.nodes n = some node)
    (hds : ds ∈ (exportNode st n node).2) :
    ds ∈ (runExport st (st.model.nodes.map Prod.fst)).2 := by
  unfold runExport
  rw [runExportAux_out st _ _ _ hkeys, List.nil_append, List.mem_flatten]
  refine ⟨(exportNode st n node).2, ?_, hds⟩
  refine List.mem_map.mpr ⟨n, ?_, ?_⟩
  · refine (lookupA_isSome_iff_mem _ _).mp ?_
    rw [hnode]
    rfl
  · rw [hnode]

/-! ### Claim C7 -/

/-- C7: persisted-dataset orientation.  Under "all"-node export: a
multi-view single-group (loading-type) node is written one dataset per
view, each the *transpose* of the in-memory expectation (so for a
(features × factors) rectangular expectation with at least one feature row
the persisted first axis length is the factor count); a single-view
multi-group node is written transposed per group slice; a single-view
single-group node is written transposed under the key "E"; and a
multi-view multi-group node is written *untransposed*, as the NaN-masked
group row-slices (first axis = the group's sample count). -/
theorem saveExpectations_orientation (st : SaveState)
    (hkeys : (st.model.nodes.map Prod.fst).Nodup) :
    ∃ st2 out, saveExpectations st (.str ("all")) = .ok (st2, out) ∧
      ((∀ n views m, n ∉ multigroupNodes →
          lookupA st.model.nodes n = some (.multiview views) → m < views.length →
          ((["expectations", n, st.views_names.getD m noName],
              transposeMat (views.getD m default).exp) ∈ out ∧
            ∀ K, 1 ≤ (views.getD m default).exp.length →
              (∀ row ∈ (views.getD m default).exp, row.length = K) →
              (transposeMat (views.getD m default).exp).length = K)) ∧
      (∀ n e g, n ∈ multigroupNodes →
          lookupA st.model.nodes n = some (.singleview e) → g ∈ st.groups_names →
          (["expectations", n, g],
            transposeMat (rowsAt e (sampIndices st.samples_groups g))) ∈ out) ∧
      (∀ n e, n ∉ multigroupNodes →
          lookupA st.model.nodes n = some (.singleview e) →
          (["expectations", n, "E"], transposeMat e) ∈ out) ∧
      (∀ n views m g, n ∈ multigroupNodes →
          lookupA st.model.nodes n = some (.multiview views) → m < views.length →
          g ∈ st.groups_names →
          ((["expectations", n, st.views_names.getD m noName, g],
              rowsAt (maskNaNMat (views.getD m default).exp (st.mask.getD m []))
                (sampIndices st.samples_groups g)) ∈ out ∧
            (rowsAt (maskNaNMat (views.getD m default).exp (st.mask.getD m []))
                (sampIndices st.samples_groups g)).length =
              (sampIndices st.samples_groups g).length))) := by
  refine ⟨_, _, saveExpectations_all_eq st hkeys, ?_, ?_, ?_, ?_⟩
  · intro n views m hnm hnode hm
    constructor
    · refine mem_runExport_out st hkeys n _ _ hnode ?_
      simp only [exportNode, if_neg hnm]
      exact getD_mem_mapIdxFrom
        (fun m2 v => (["expectations", n, st.views_names.getD m2 noName],
          transposeMat v.exp)) views m default hm
    · intro K hlen hrows
      cases he : (views.getD m default).exp with
      | nil => rw [he] at hlen; simp at hlen
      | cons r rs =>
          rw [transposeMat_length, List.headD_cons]
          exact hrows r (by rw [he]; exact List.mem_cons_self r rs)
  · intro n e g hnm hnode hg
    refine mem_runExport_out st hkeys n _ _ hnode ?_
    simp only [exportNode, if_pos hnm]
    exact List.mem_map.mpr ⟨g, hg, rfl⟩
  · intro n e hnm hnode
    refine mem_runExport_out st hkeys n _ _ hnode ?_
    simp only [exportNode, if_neg hnm]
    exact List.mem_singleton.mpr rfl
  · intro n views m g hnm hnode hm hg
    have hgroups : st.groups_names ≠ [] := by
      intro hnil
      rw [hnil] at hg
      exact List.not_mem_nil g hg
    constructor
    · refine mem_runExport_out st hkeys n _ _ hnode ?_
      simp only [exportNode, if_pos hnm]
      rw [List.mem_flatten]
      refine ⟨st.groups_names.map (fun g2 =>
          (["expectations", n, st.views_names.getD m noName, g2],
            rowsAt (maskNaNMat (views.getD m default).exp (st.mask.getD m []))
              (sampIndices st.samples_groups g2))), ?_, ?_⟩
      · rw [map_mapIdxFrom]
        simp only [exportMGView_spec _ _ _ _ _ _ hgroups]
        exact getD_mem_mapIdxFrom (fun m2 v =>
          st.groups_names.map (fun g2 =>
            (["expectations", n, st.views_names.getD m2 noName, g2],
              rowsAt (maskNaNMat v.exp (st.mask.getD m2 []))
                (sampIndices st.samples_groups g2))))
          views m default hm
      · exact List.mem_map.mpr ⟨g, hg, rfl⟩
    · simp [rowsAt]

/-- Witness for C9: on the concrete registry, exporting "all" rewrites the
masked (0,0) entry of the Y node's stored expectation to NaN, which is not
float-equal to the 1 stored before the save. -/
theorem saveExpectations_mutates_masked_witness :
    (exState.model.nodes.map Prod.fst).Nodup ∧
    (∃ st2 out, saveExpectations exState (.str ("all")) = .ok (st2, out) ∧
      ∃ views2, lookupA st2.model.nodes ("Y") = some (.multiview views2) ∧
        entryAt (views2.getD 0 default).exp 0 0 = none ∧
        vEq (entryAt (views2.getD 0 default).exp 0 0)
          (entryAt (exYViews.getD 0 default).exp 0 0) = false) :=
  ⟨by decide,
    saveExpectations_mutates_masked exState ("Y") exYViews 0 0 0 (by decide)
      (Or.inl rfl) rfl (by decide) (by decide) (by decide) (by decide) (by decide)⟩

/-- Witness for C7 at the concrete registry: the orientation conventions
hold for all four node kinds. -/
theorem saveExpectations_orientation_witness :
    (exState.model.nodes.map Prod.fst).Nodup ∧
    (∃ st2 out, saveExpectations exState (.str ("all")) = .ok (st2, out) ∧
      ((∀ n views m, n ∉ multigroupNodes →
          lookupA exState.model.nodes n = some (.multiview views) → m < views.length →
          ((["expectations", n, exState.views_names.getD m noName],
              transposeMat (views.getD m default).exp) ∈ out ∧
            ∀ K, 1 ≤ (views.getD m default).exp.length →
              (∀ row ∈ (views.getD m default).exp, row.length = K) →
              (transposeMat (views.getD m default).exp).length = K)) ∧
      (∀ n e g, n ∈ multigroupNodes →
          lookupA exState.model.nodes n = some (.singleview e) → g ∈ exState.groups_names →
          (["expectations", n, g],
            transposeMat (rowsAt e (sampIndices exState.samples_groups g))) ∈ out) ∧
      (∀ n e, n ∉ multigroupNodes →
          lookupA exState.model.nodes n = some (.singleview e) →
          (["expectations", n, "E"], transposeMat e) ∈ out) ∧
      (∀ n views m g, n ∈ multigroupNodes →
          lookupA exState.model.nodes n = some (.multiview views) → m < views.length →
          g ∈ exState.groups_names →
          ((["expectations", n, exState.views_names.getD m noName, g],
              rowsAt (maskNaNMat (views.getD m default).exp (exState.mask.getD m []))
                (sampIndices exState.samples_groups g)) ∈ out ∧
            (rowsAt (maskNaNMat (views.getD m default).exp (exState.mask.getD m []))
                (sampIndices exState.samples_groups g)).length =
              (sampIndices exState.samples_groups g).length)))) :=
  ⟨by decide, saveExpectations_orientation exState (by decide)⟩

/-! ### Helper lemmas: options flattening -/

lemma dictSet_fresh (d : PyOpts) (k : String) (v : OptVal)
    (h : k ∉ d.map Prod.fst) : dictSet d k v = d ++ [(k, v)] := by
  induction d with
  | nil => rfl
  | cons kv rest ih =>
      rw [List.map_cons, List.mem_cons] at h
      push_neg at h
      have hk : kv.1 ≠ k := fun he => h.1 he.symm
      simp only [dictSet, if_neg hk, List.cons_append]
      exact congrArg _ (ih h.2)

lemma flattenChildren_fresh (ch : List (String × ℚ)) (cur : PyOpts) (k : String)
    (hfresh : ∀ c ∈ ch, (k ++ "_" ++ c.1) ∉ cur.map Prod.fst)
    (hnd : (ch.map (fun c => k ++ "_" ++ c.1)).Nodup) :
    flattenChildren k cur ch =
      cur ++ ch.map (fun c => (k ++ "_" ++ c.1, OptVal.num c.2)) := by
  induction ch generalizing cur with
  | nil => simp [flattenChildren]
  | cons c rest ih =>
      rw [List.map_cons, List.nodup_cons] at hnd
      simp only [flattenChildren]
      rw [dictSet_fresh _ _ _ (hfresh c (List.mem_cons_self c rest))]
      rw [ih (cur ++ [(k ++ "_" ++ c.1, OptVal.num c.2)]) ?_ hnd.2]
      · simp [List.append_assoc]
      · intro c2 hc2
        rw [List.map_append, List.mem_append]
        push_neg
        refine ⟨hfresh c2 (List.mem_cons_of_mem c hc2), ?_⟩
        intro hm
        rcases List.mem_map.mp hm with ⟨e, he, hekey⟩
        rw [List.mem_singleton] at he
        subst he
        have heq : (k ++ "_" ++ c.1) = (k ++ "_" ++ c2.1) := hekey
        exact hnd.1 (heq ▸ List.mem_map.mpr ⟨c2, hc2, rfl⟩)

lemma flNames_cons_dict (k : String) (ch : List (String × ℚ))
    (rest : List (String × OptVal)) :
    flNames ((k, OptVal.dict ch) :: rest) =
      ch.map (fun c => k ++ "_" ++ c.1) ++ flNames rest := by
  simp [flNames]

lemma flNames_cons_num (k : String) (q : ℚ) (rest : List (String × OptVal)) :
    flNames ((k, OptVal.num q) :: rest) = flNames rest := by
  simp [flNames]

lemma flNames_cons_str (k s : String) (rest : List (String × OptVal)) :
    flNames ((k, OptVal.str s) :: rest) = flNames rest := by
  simp [flNames]

lemma parentKeys_cons_dict (k : String) (ch : List (String × ℚ))
    (rest : List (String × OptVal)) :
    parentKeys ((k, OptVal.dict ch) :: rest) = k :: parentKeys rest := by
  simp [parentKeys]

lemma parentKeys_cons_num (k : String) (q : ℚ) (rest : List (String × OptVal)) :
    parentKeys ((k, OptVal.num q) :: rest) = parentKeys rest := by
  simp [parentKeys]

lemma parentKeys_cons_str (k s : String) (rest : List (String × OptVal)) :
    parentKeys ((k, OptVal.str s) :: rest) = parentKeys rest := by
  simp [parentKeys]

lemma flatChildren_cons_dict (k : String) (ch : List (String × ℚ))
    (rest : List (String × OptVal)) :
    flatChildren ((k, OptVal.dict ch) :: rest) =
      ch.map (fun c => (k ++ "_" ++ c.1, OptVal.num c.2)) ++ flatChildren rest := by
  simp [flatChildren]

lemma flatChildren_cons_num (k : String) (q : ℚ) (rest : List (String × OptVal)) :
    flatChildren ((k, OptVal.num q) :: rest) = flatChildren rest := by
  simp [flatChildren]

lemma flatChildren_cons_str (k s : String) (rest : List (String × OptVal)) :
    flatChildren ((k, OptVal.str s) :: rest) = flatChildren rest := by
  simp [flatChildren]

lemma mem_keys_of_mem_parentKeys (d : PyOpts) (x : String)
    (h : x ∈ parentKeys d) : x ∈ d.map Prod.fst := by
  induction d with
  | nil => simp [parentKeys] at h
  | cons kv rest ih =>
      obtain ⟨k, v⟩ := kv
      cases v with
      | dict ch =>
          rw [parentKeys_cons_dict] at h
          rcases List.mem_cons.mp h with h | h
          · exact h ▸ List.mem_cons_self _ _
          · exact List.mem_cons_of_mem _ (ih h)
      | num q =>
          rw [parentKeys_cons_num] at h
          exact List.mem_cons_of_mem _ (ih h)
      | str s =>
          rw [parentKeys_cons_str] at h
          exact List.mem_cons_of_mem _ (ih h)

lemma mem_parentKeys_of_dict_mem (d : PyOpts) (p : String) (ch : List (String × ℚ)) :
    (p, OptVal.dict ch) ∈ d → p ∈ parentKeys d := by
  induction d with
  | nil => intro h; simp at h
  | cons kv rest ih =>
      intro h
      rcases List.mem_cons.mp h with heq | hmem
      · rw [← heq, parentKeys_cons_dict]
        exact List.mem_cons_self _ _
      · clear h
        obtain ⟨k, v⟩ := kv
        cases v with
        | dict ch2 => rw [parentKeys_cons_dict]; exact List.mem_cons_of_mem _ (ih hmem)
        | num q => rw [parentKeys_cons_num]; exact ih hmem
        | str s => rw [parentKeys_cons_str]; exact ih hmem

lemma mem_flatChildren (d : PyOpts) (p c : String) (ch : List (String × ℚ)) (q : ℚ)
    (hd : (p, OptVal.dict ch) ∈ d) (hc : (c, q) ∈ ch) :
    (p ++ "_" ++ c, OptVal.num q) ∈ flatChildren d := by
  unfold flatChildren
  rw [List.mem_flatten]
  refine ⟨ch.map (fun c2 => (p ++ "_" ++ c2.1, OptVal.num c2.2)), ?_, ?_⟩
  · exact List.mem_map.mpr ⟨(p, OptVal.dict ch), hd, rfl⟩
  · exact List.mem_map.mpr ⟨(c, q), hc, rfl⟩

lemma flatChildren_keys (d : PyOpts) :
    (flatChildren d).map Prod.fst = flNames d := by
  unfold flatChildren flNames
  rw [List.map_flatten, List.map_map]
  refine congrArg List.flatten (List.map_congr_left (fun kv _ => ?_))
  obtain ⟨k, v⟩ := kv
  cases v <;> simp

lemma flatChildren_isNum (d : PyOpts) (kv : String × OptVal)
    (h : kv ∈ flatChildren d) : kv.2.isNum = true := by
  unfold flatChildren at h
  rw [List.mem_flatten] at h
  obtain ⟨l, hl, hkv⟩ := h
  rcases List.mem_map.mp hl with ⟨kv0, _, rfl⟩
  obtain ⟨k0, v0⟩ := kv0
  cases v0 with
  | dict ch =>
      rcases List.mem_map.mp hkv with ⟨c, _, rfl⟩
      rfl
  | num q => simp at hkv
  | str s => simp at hkv

lemma flattenLoop_spec (todo : List (String × OptVal)) (cur : PyOpts)
    (hfl : (flNames todo).Nodup)
    (hdisj : ∀ x ∈ flNames todo, x ∉ cur.map Prod.fst)
    (hpar : ∀ x ∈ flNames todo, x ∉ parentKeys todo) :
    flattenLoop todo cur =
      cur.filter (fun kv => !((parentKeys todo).contains kv.1)) ++ flatChildren todo := by
  induction todo generalizing cur with
  | nil =>
      simp [flattenLoop, parentKeys, flatChildren]
  | cons kv rest ih =>
      obtain ⟨k, v⟩ := kv
      cases v with
      | num q =>
          rw [flNames_cons_num] at hfl hdisj hpar
          rw [parentKeys_cons_num] at hpar
          simp only [flattenLoop]
          rw [ih cur hfl hdisj hpar, parentKeys_cons_num, flatChildren_cons_num]
      | str s =>
          rw [flNames_cons_str] at hfl hdisj hpar
          rw [parentKeys_cons_str] at hpar
          simp only [flattenLoop]
          rw [ih cur hfl hdisj hpar, parentKeys_cons_str, flatChildren_cons_str]
      | dict ch =>
          rw [flNames_cons_dict] at hfl hdisj hpar
          rw [parentKeys_cons_dict] at hpar
          rw [List.nodup_append] at hfl
          have hknotfl : ∀ x ∈ ch.map (fun c => k ++ "_" ++ c.1), x ≠ k := by
            intro x hx he
            exact hpar x (List.mem_append.mpr (Or.inl hx))
              (he ▸ List.mem_cons_self _ _)
          have hc : flattenChildren k cur ch =
              cur ++ ch.map (fun c => (k ++ "_" ++ c.1, OptVal.num c.2)) := by
            refine flattenChildren_fresh ch cur k (fun c hcm => ?_) hfl.1
            exact hdisj _ (List.mem_append.mpr (Or.inl (List.mem_map.mpr ⟨c, hcm, rfl⟩)))
          simp only [flattenLoop]
          rw [hc]
          have hpop : dictPop (cur ++ ch.map (fun c => (k ++ "_" ++ c.1, OptVal.num c.2))) k =
              dictPop cur k ++ ch.map (fun c => (k ++ "_" ++ c.1, OptVal.num c.2)) := by
            unfold dictPop
            rw [List.filter_append]
            have : (ch.map (fun c => (k ++ "_" ++ c.1, OptVal.num c.2))).filter
                (fun kv2 => kv2.1 != k) =
                ch.map (fun c => (k ++ "_" ++ c.1, OptVal.num c.2)) := by
              refine List.filter_eq_self.mpr (fun kv2 hkv2 => ?_)
              rcases List.mem_map.mp hkv2 with ⟨c, hcm, rfl⟩
              exact bne_iff_ne.mpr (hknotfl _ (List.mem_map.mpr ⟨c, hcm, rfl⟩))
            rw [this]
          rw [hpop]
          rw [ih (dictPop cur k ++ ch.map (fun c => (k ++ "_" ++ c.1, OptVal.num c.2)))
            hfl.2.1 ?_ ?_]
          · rw [parentKeys_cons_dict, flatChildren_cons_dict, List.filter_append]
            have hA : (ch.map (fun c => (k ++ "_" ++ c.1, OptVal.num c.2))).filter
                (fun kv2 => !((parentKeys rest).contains kv2.1)) =
                ch.map (fun c => (k ++ "_" ++ c.1, OptVal.num c.2)) := by
              refine List.filter_eq_self.mpr (fun kv2 hkv2 => ?_)
              rcases List.mem_map.mp hkv2 with ⟨c, hcm, rfl⟩
              have : (k ++ "_" ++ c.1) ∉ parentKeys rest := by
                intro hm
                exact hpar _ (List.mem_append.mpr
                  (Or.inl (List.mem_map.mpr ⟨c, hcm, rfl⟩)))
                  (List.mem_cons_of_mem _ hm)
              simp [this]
            rw [hA]
            unfold dictPop
            rw [List.filter_filter]
            have hcongr : ∀ kv2 ∈ cur,
                ((!((parentKeys rest).contains kv2.1)) && (kv2.1 != k)) =
                  (!((k :: parentKeys rest).contains kv2.1)) := by
              intro kv2 _
              rw [List.contains_cons]
              cases h1 : kv2.1 == k <;> cases h2 : (parentKeys rest).contains kv2.1 <;>
                simp [bne, h1, h2]
            rw [List.filter_congr hcongr, List.append_assoc]
          · intro x hx
            rw [List.map_append, List.mem_append]
            push_neg
            constructor
            · intro hm
              have : x ∈ cur.map Prod.fst := by
                unfold dictPop at hm
                rcases List.mem_map.mp hm with ⟨kv2, hkv2, rfl⟩
                exact List.mem_map.mpr ⟨kv2, List.mem_of_mem_filter hkv2, rfl⟩
              exact hdisj x (List.mem_append.mpr (Or.inr hx)) this
            · intro hm
              rcases List.mem_map.mp hm with ⟨e, he, hekey⟩
              rcases List.mem_map.mp he with ⟨c, hcm, rfl⟩
              exact (List.disjoint_right.mp hfl.2.2 hx)
                (hekey ▸ List.mem_map.mpr ⟨c, hcm, rfl⟩)
          · intro x hx hp
            exact hpar x (List.mem_append.mpr (Or.inr hx)) (List.mem_cons_of_mem _ hp)

lemma saveTrainOptionsCore_opts (opts : PyOpts)
    (hfl : (flNames opts).Nodup)
    (hkeys : ∀ x ∈ flNames opts, x ∉ opts.map Prod.fst)
    (hspec : ∀ x ∈ flNames opts, x ≠ ("schedule") ∧ x ≠ ("convergence_mode")) :
    (saveTrainOptionsCore opts).1 =
      opts.filter (fun kv => (!((parentKeys opts).contains kv.1)) &&
        (kv.1 != "schedule") && (kv.1 != "convergence_mode")) ++ flatChildren opts := by
  have hpar : ∀ x ∈ flNames opts, x ∉ parentKeys opts :=
    fun x hx hp => hkeys x hx (mem_keys_of_mem_parentKeys _ _ hp)
  show (dictPop (dictPop (flattenLoop opts opts) ("schedule")) ("convergence_mode")) = _
  rw [flattenLoop_spec opts opts hfl hkeys hpar]
  unfold dictPop
  rw [List.filter_append, List.filter_append]
  have hC1 : (flatChildren opts).filter (fun kv => kv.1 != "schedule") =
      flatChildren opts := by
    refine List.filter_eq_self.mpr (fun kv hkv => ?_)
    refine bne_iff_ne.mpr ?_
    have : kv.1 ∈ flNames opts := by
      rw [← flatChildren_keys]
      exact List.mem_map.mpr ⟨kv, hkv, rfl⟩
    exact (hspec _ this).1
  rw [hC1]
  have hC2 : (flatChildren opts).filter (fun kv => kv.1 != "convergence_mode") =
      flatChildren opts := by
    refine List.filter_eq_self.mpr (fun kv hkv => ?_)
    refine bne_iff_ne.mpr ?_
    have : kv.1 ∈ flNames opts := by
      rw [← flatChildren_keys]
      exact List.mem_map.mpr ⟨kv, hkv, rfl⟩
    exact (hspec _ this).2
  rw [hC2]
  rw [List.filter_filter, List.filter_filter]
  refine congrArg (fun l => l ++ flatChildren opts) (List.filter_congr (fun kv _ => ?_))
  cases h1 : (!((parentKeys opts).contains kv.1)) <;>
    cases h2 : (kv.1 != "schedule") <;>
      cases h3 : (kv.1 != "convergence_mode") <;> simp [h1, h2, h3]

lemma saveTrainOptionsCore_facts (opts : PyOpts)
    (hfl : (flNames opts).Nodup)
    (hkeys : ∀ x ∈ flNames opts, x ∉ opts.map Prod.fst)
    (hspec : ∀ x ∈ flNames opts, x ≠ ("schedule") ∧ x ≠ ("convergence_mode")) :
    (∀ p ch c q, (p, OptVal.dict ch) ∈ opts → (c, q) ∈ ch →
      (p ++ "_" ++ c, OptVal.num q) ∈ (saveTrainOptionsCore opts).1) ∧
    (∀ p ch, (p, OptVal.dict ch) ∈ opts →
      p ∉ ((saveTrainOptionsCore opts).1).map Prod.fst) ∧
    ("schedule") ∉ ((saveTrainOptionsCore opts).1).map Prod.fst ∧
    ("convergence_mode") ∉ ((saveTrainOptionsCore opts).1).map Prod.fst := by
  rw [saveTrainOptionsCore_opts opts hfl hkeys hspec]
  refine ⟨?_, ?_, ?_, ?_⟩
  · intro p ch c q hd hc
    exact List.mem_append.mpr (Or.inr (mem_flatChildren opts p c ch q hd hc))
  · intro p ch hd hm
    rw [List.map_append, List.mem_append] at hm
    rcases hm with hm | hm
    · rcases List.mem_map.mp hm with ⟨kv, hkv, rfl⟩
      rcases List.mem_filter.mp hkv with ⟨_, hpred⟩
      rw [Bool.and_eq_true, Bool.and_eq_true] at hpred
      obtain ⟨⟨h1, _⟩, _⟩ := hpred
      rw [Bool.not_eq_true'] at h1
      have hp : kv.1 ∈ parentKeys opts := mem_parentKeys_of_dict_mem _ _ _ hd
      have htrue : (parentKeys opts).contains kv.1 = true := List.elem_iff.mpr hp
      rw [h1] at htrue
      exact absurd htrue (by decide)
    · rw [flatChildren_keys] at hm
      exact hkeys p hm (List.mem_map.mpr ⟨(p, OptVal.dict ch), hd, rfl⟩)
  · intro hm
    rw [List.map_append, List.mem_append] at hm
    rcases hm with hm | hm
    · rcases List.mem_map.mp hm with ⟨kv, hkv, hk1⟩
      rcases List.mem_filter.mp hkv with ⟨_, hpred⟩
      rw [Bool.and_eq_true, Bool.and_eq_true] at hpred
      obtain ⟨⟨_, h2⟩, _⟩ := hpred
      exact bne_iff_ne.mp h2 hk1
    · rw [flatChildren_keys] at hm
      exact (hspec _ hm).1 rfl
  · intro hm
    rw [List.map_append, List.mem_append] at hm
    rcases hm with hm | hm
    · rcases List.mem_map.mp hm with ⟨kv, hkv, hk1⟩
      rcases List.mem_filter.mp hkv with ⟨_, hpred⟩
      rw [Bool.and_eq_true, Bool.and_eq_true] at hpred
      obtain ⟨_, h3⟩ := hpred
      exact bne_iff_ne.mp h3 hk1
    · rw [flatChildren_keys] at hm
      exact (hspec _ hm).2 rfl

lemma saveTrainOptionsCore_table_ok (opts : PyOpts)
    (hvals : ∀ kv ∈ opts, kv.2.isDict = false → kv.1 ≠ ("schedule") →
      kv.1 ≠ ("convergence_mode") → kv.2.isNum = true)
    (hfl : (flNames opts).Nodup)
    (hkeys : ∀ x ∈ flNames opts, x ∉ opts.map Prod.fst)
    (hspec : ∀ x ∈ flNames opts, x ≠ ("schedule") ∧ x ≠ ("convergence_mode")) :
    (saveTrainOptionsCore opts).2 =
      .ok (((saveTrainOptionsCore opts).1).filterMap numExtract) := by
  have hall : ((saveTrainOptionsCore opts).1).all (fun kv => kv.2.isNum) = true := by
    rw [saveTrainOptionsCore_opts opts hfl hkeys hspec]
    rw [List.all_eq_true]
    intro kv hkv
    rw [List.mem_append] at hkv
    rcases hkv with hkv | hkv
    · rcases List.mem_filter.mp hkv with ⟨hmem, hpred⟩
      rw [Bool.and_eq_true, Bool.and_eq_true] at hpred
      obtain ⟨⟨h1, h2⟩, h3⟩ := hpred
      have hnd : kv.2.isDict = false := by
        obtain ⟨k0, v0⟩ := kv
        cases v0 with
        | dict ch =>
            rw [Bool.not_eq_true'] at h1
            have htrue : (parentKeys opts).contains (k0, OptVal.dict ch).1 = true :=
              List.elem_iff.mpr (mem_parentKeys_of_dict_mem _ _ _ hmem)
            rw [h1] at htrue
            exact absurd htrue (by decide)
        | num q => rfl
        | str s => rfl
      exact hvals kv hmem hnd (bne_iff_ne.mp h2) (bne_iff_ne.mp h3)
    · exact flatChildren_isNum opts kv hkv
  show toNumTable (saveTrainOptionsCore opts).1 = _
  unfold toNumTable
  rw [if_pos hall]

lemma filterMap_numExtract_keys (d : PyOpts) (x : String)
    (h : x ∈ (d.filterMap numExtract).map Prod.fst) : x ∈ d.map Prod.fst := by
  rcases List.mem_map.mp h with ⟨e, he, rfl⟩
  rcases List.mem_filterMap.mp he with ⟨kv, hkv, hex⟩
  refine List.mem_map.mpr ⟨kv, hkv, ?_⟩
  obtain ⟨k0, v0⟩ := kv
  cases v0 with
  | num q =>
      simp only [numExtract] at hex
      rw [← Option.some.inj hex]
  | str s => simp [numExtract] at hex
  | dict ch => simp [numExtract] at hex

lemma getD_set_self {α : Type} (l : List α) (i : ℕ) (a d : α) (h : i < l.length) :
    (l.set i a).getD i d = a := by
  rw [List.getD_eq_getElem?_getD, List.getElem?_set_self h]
  rfl

/-! ### Claim C8

Flattening `{"convergence": {"mode": v}}` produces the key
`convergence_mode`, which the subsequent string-key removal then deletes:
the nested entry does *not* appear in the persisted table.  The claim holds
once the flattened names are required to avoid "schedule" and
"convergence_mode", to be pairwise distinct, and to avoid existing keys. -/

/-- Counterexample to C8 as stated: for options
`{"convergence": {"mode": 3}}` the flattened entry `convergence_mode = 3`
is deleted again by the `convergence_mode` removal — the persisted table is
empty, and so is the mutated dictionary. -/
theorem saveTrainOptions_flattening_counterexample :
    (saveTrainOptionsCore [("convergence", OptVal.dict [("mode", 3)])]).2 = .ok [] ∧
      (saveTrainOptionsCore [("convergence", OptVal.dict [("mode", 3)])]).1 = [] :=
  ⟨rfl, rfl⟩

/-- C8 (amended): for a training-options dictionary whose entries are
numeric, one-level numeric dictionaries, or the string-valued
`schedule` / `convergence_mode` fields, and whose flattened `parent_child`
names are pairwise distinct, distinct from every existing top-level key and
distinct from "schedule" and "convergence_mode" (the source deletes those
names *after* flattening), `saveTrainOptions` persists a numeric table in
which every nested entry {parent: {child: v}} appears as `parent_child`
with value v, the parent keys are absent, and the `schedule` and
`convergence_mode` entries are omitted without error. -/
theorem saveTrainOptions_flattening (opts : PyOpts)
    (hvals : ∀ kv ∈ opts, kv.2.isDict = false → kv.1 ≠ ("schedule") →
      kv.1 ≠ ("convergence_mode") → kv.2.isNum = true)
    (hfl : (flNames opts).Nodup)
    (hkeys : ∀ x ∈ flNames opts, x ∉ opts.map Prod.fst)
    (hspec : ∀ x ∈ flNames opts, x ≠ ("schedule") ∧ x ≠ ("convergence_mode")) :
    ∃ t, (saveTrainOptionsCore opts).2 = .ok t ∧
      (∀ p ch c q, (p, OptVal.dict ch) ∈ opts → (c, q) ∈ ch →
        (p ++ "_" ++ c, q) ∈ t) ∧
      (∀ p ch, (p, OptVal.dict ch) ∈ opts → p ∉ t.map Prod.fst) ∧
      ("schedule") ∉ t.map Prod.fst ∧ ("convergence_mode") ∉ t.map Prod.fst := by
  obtain ⟨hins, hparf, hsch, hcnv⟩ := saveTrainOptionsCore_facts opts hfl hkeys hspec
  refine ⟨_, saveTrainOptionsCore_table_ok opts hvals hfl hkeys hspec, ?_, ?_, ?_, ?_⟩
  · intro p ch c q hd hc
    exact List.mem_filterMap.mpr ⟨(p ++ "_" ++ c, OptVal.num q), hins p ch c q hd hc, rfl⟩
  · intro p ch hd hm
    exact hparf p ch hd (filterMap_numExtract_keys _ _ hm)
  · intro hm
    exact hsch (filterMap_numExtract_keys _ _ hm)
  · intro hm
    exact hcnv (filterMap_numExtract_keys _ _ hm)

/-- Witness for C8 (amended) on `w8opts`. -/
theorem saveTrainOptions_flattening_witness :
    (flNames w8opts).Nodup ∧
      (∃ t, (saveTrainOptionsCore w8opts).2 = .ok t ∧
        (∀ p ch c q, (p, OptVal.dict ch) ∈ w8opts → (c, q) ∈ ch →
          (p ++ "_" ++ c, q) ∈ t) ∧
        (∀ p ch, (p, OptVal.dict ch) ∈ w8opts → p ∉ t.map Prod.fst) ∧
        ("schedule") ∉ t.map Prod.fst ∧ ("convergence_mode") ∉ t.map Prod.fst) :=
  ⟨by decide,
    saveTrainOptions_flattening w8opts (by decide) (by decide) (by decide) (by decide)⟩

/-! ### Claim C10 -/

/-- Counterexample to C10 as stated: with the caller's dictionary
`{"convergence": {"mode": 3}}`, after `saveTrainOptions` the caller's cell
is empty — the flattened `convergence_mode` key has *not* been inserted
(it was flattened and then deleted by the string-field removal). -/
theorem saveTrainOptions_inplace_counterexample :
    (saveTrainOptions c10State [[("convergence", OptVal.dict [("mode", 3)])]]).1 =
      [[]] := rfl

/-- C10 (amended): `saveTrainOptions` mutates the caller's dictionary (the
very store cell captured by the constructor) in place: afterwards the cell
holds the flattened dictionary — every nested parent key and the
`schedule` / `convergence_mode` keys are gone, and (provided no flattened
name collides with "schedule"/"convergence_mode", another flattened name,
or an existing key) every flattened `parent_child` entry has been inserted
into it. -/
theorem saveTrainOptions_mutates_caller (st : SaveState) (store : List PyOpts)
    (href : st.trainOptsRef < store.length)
    (hfl : (flNames (store.getD st.trainOptsRef [])).Nodup)
    (hkeys : ∀ x ∈ flNames (store.getD st.trainOptsRef []),
      x ∉ (store.getD st.trainOptsRef []).map Prod.fst)
    (hspec : ∀ x ∈ flNames (store.getD st.trainOptsRef []),
      x ≠ ("schedule") ∧ x ≠ ("convergence_mode")) :
    ∃ store2 res, saveTrainOptions st store = (store2, res) ∧
      store2.getD st.trainOptsRef [] =
        (saveTrainOptionsCore (store.getD st.trainOptsRef [])).1 ∧
      (∀ p ch c q, (p, OptVal.dict ch) ∈ store.getD st.trainOptsRef [] → (c, q) ∈ ch →
        (p ++ "_" ++ c, OptVal.num q) ∈ store2.getD st.trainOptsRef []) ∧
      (∀ p ch, (p, OptVal.dict ch) ∈ store.getD st.trainOptsRef [] →
        p ∉ (store2.getD st.trainOptsRef []).map Prod.fst) ∧
      ("schedule") ∉ (store2.getD st.trainOptsRef []).map Prod.fst ∧
      ("convergence_mode") ∉ (store2.getD st.trainOptsRef []).map Prod.fst := by
  obtain ⟨hins, hparf, hsch, hcnv⟩ := saveTrainOptionsCore_facts _ hfl hkeys hspec
  have hcell : (store.set st.trainOptsRef
      (saveTrainOptionsCore (store.getD st.trainOptsRef [])).1).getD st.trainOptsRef [] =
      (saveTrainOptionsCore (store.getD st.trainOptsRef [])).1 :=
    getD_set_self _ _ _ _ href
  refine ⟨store.set st.trainOptsRef
      (saveTrainOptionsCore (store.getD st.trainOptsRef [])).1,
    (saveTrainOptionsCore (store.getD st.trainOptsRef [])).2, rfl, hcell, ?_, ?_, ?_, ?_⟩
  · intro p ch c q hd hc
    rw [hcell]
    exact hins p ch c q hd hc
  · intro p ch hd
    rw [hcell]
    exact hparf p ch hd
  · rw [hcell]
    exact hsch
  · rw [hcell]
    exact hcnv

/-- Witness for C10 (amended): the caller's cell 0 holding `w8opts` is
flattened in place. -/
theorem saveTrainOptions_mutates_caller_witness :
    c10State.trainOptsRef < ([w8opts] : List PyOpts).length ∧
      (∃ store2 res, saveTrainOptions c10State [w8opts] = (store2, res) ∧
        store2.getD c10State.trainOptsRef [] =
          (saveTrainOptionsCore (([w8opts] : List PyOpts).getD c10State.trainOptsRef [])).1 ∧
        (∀ p ch c q,
          (p, OptVal.dict ch) ∈ ([w8opts] : List PyOpts).getD c10State.trainOptsRef [] →
          (c, q) ∈ ch →
          (p ++ "_" ++ c, OptVal.num q) ∈ store2.getD c10State.trainOptsRef []) ∧
        (∀ p ch,
          (p, OptVal.dict ch) ∈ ([w8opts] : List PyOpts).getD c10State.trainOptsRef [] →
          p ∉ (store2.getD c10State.trainOptsRef []).map Prod.fst) ∧
        ("schedule") ∉ (store2.getD c10State.trainOptsRef []).map Prod.fst ∧
        ("convergence_mode") ∉ (store2.getD c10State.trainOptsRef []).map Prod.fst) :=
  ⟨by decide,
    saveTrainOptions_mutates_caller c10State [w8opts] (by decide) (by decide)
      (by decide) (by decide)⟩

end MOFA2
